import Mathlib

/-!
Shallow embedding of `src/env/critical.py` (tokamak plasma critical-point,
core-mask, contour-tracing and safety-factor analysis) and verification of
the frozen claims about it.

Modelling conventions:
* Python floats are modelled as exact rationals (`ℚ`); decimal literals such
  as `1e-5` become the exact rationals `1/100000` etc.
* numpy 2D arrays indexed `a[i, j]` become functions `ℕ → ℕ → ℚ` together
  with explicit dimensions `nx ny : ℕ`.
* The scipy `RectBivariateSpline` interpolant is an external capability (the
  spec keeps the interpolation engine out of scope), modelled as an injected
  function `SplineFn` answering derivative-order queries, produced by an
  injected factory.  Transcendental functions (`sin`, `cos`, `arctan2`) and
  the constant `pi` (imported from `src.env.utils.physical_constant`, a
  module that is not present under `src/`) are likewise injected, via
  `RealOps`.
* Python exceptions are modelled explicitly: functions that can raise return
  `Option` or a dedicated outcome type.
* `x / 0 = 0` in `ℚ`; the few places where numpy would instead produce
  `inf`/`nan` (or `np.linalg.inv` would raise) carry comments at the
  definition site.
-/

namespace Critical

attribute [local semireducible] Rat.add Rat.mul Rat.sub Rat.inv Rat.ofScientific
attribute [local semireducible] List.merge List.mergeSort

/-- `np.clip(x, lo, hi)`: clamp below by `lo` first, then above by `hi`
(numpy applies the upper bound last). -/
def npClip (x lo hi : ℚ) : ℚ := min hi (max lo x)

/-- `np.linspace(a, b, n)` (with endpoint): `n` evenly spaced samples from
`a` to `b`.  For `n = 1` the rational division by `n - 1 = 0` yields `0`,
so the single sample is `a`, matching numpy's special case. -/
def linspace (a b : ℚ) (n : ℕ) : List ℚ :=
  (List.range n).map (fun (k : ℕ) => a + (b - a) * (k : ℚ) / ((n : ℚ) - 1))

/-- Python sequence indexing `l[k]` including negative indices
(`l[-1]` is the last element).  Out-of-range access defaults to `0`
(CPython would raise `IndexError`; the embedded callers stay in range). -/
def pyGet (l : List ℚ) (k : ℤ) : ℚ :=
  if k < 0 then l.getD (l.length - (-k).toNat) 0 else l.getD k.toNat 0

/-- `np.argmax` of a boolean array: index of the first `true`, and `0` when
every entry is `false`. -/
def npArgmaxBool : List Bool → ℕ
  | [] => 0
  | true :: _ => 0
  | false :: rest => if rest.any (fun b => b) then npArgmaxBool rest + 1 else 0

/-- `np.argmin` of an array: index of the first occurrence of the minimum;
`0` on the empty array (numpy raises there; the embedded callers pass
nonempty arrays). -/
def npArgmin : List ℚ → ℕ
  | [] => 0
  | [_] => 0
  | x :: y :: rest =>
    let r := npArgmin (y :: rest)
    if x ≤ (y :: rest).getD r 0 then 0 else r + 1

/-- `np.amax`: maximum of an array (`0` on the empty array, where numpy
raises). -/
def npAmax (l : List ℚ) : ℚ := l.foldl max (l.headD 0)

/-- A critical point `(r, z, psi)` as produced by `find_critical`. -/
abbrev CriticalPoint := ℚ × ℚ × ℚ

/-- Interpolant capability: `f dx dy r z` models the query
`f(r, z, dx = dx, dy = dy)` (value for `dx = dy = 0`, partial derivatives
otherwise) on a `RectBivariateSpline`-like object. -/
abbrev SplineFn := ℕ → ℕ → ℚ → ℚ → ℚ

/-- Factory capability standing for `scipy.interpolate.RectBivariateSpline`:
from the 1D knot arrays `R[:,0]`, `Z[0,:]` and a 2D data array it builds an
interpolant.  Its internal construction is out of scope per the spec. -/
structure SplineFactory where
  build : List ℚ → List ℚ → (ℕ → ℕ → ℚ) → SplineFn

/-- Injected real-valued operations: numpy transcendentals and the constant
`pi` (whose defining module is not under `src/`). -/
structure RealOps where
  pi : ℚ
  sin : ℚ → ℚ
  cos : ℚ → ℚ
  atan2 : ℚ → ℚ → ℚ

/-- The slice of the `Equilibrium` collaborator consumed by the embedded
functions: grid arrays with their dimensions, the flux accessor `psi()`,
and the grid bounding box. -/
structure Equilibrium where
  R : ℕ → ℕ → ℚ
  Z : ℕ → ℕ → ℚ
  nx : ℕ
  ny : ℕ
  psiFn : ℕ → ℕ → ℚ
  Rmin : ℚ
  Rmax : ℚ
  Zmin : ℚ
  Zmax : ℚ

/-- The column `R[:, 0]` of the grid as a list. -/
def colR (R : ℕ → ℕ → ℚ) (nx : ℕ) : List ℚ := (List.range nx).map (fun i => R i 0)

/-- The row `Z[0, :]` of the grid as a list. -/
def rowZ (Z : ℕ → ℕ → ℚ) (ny : ℕ) : List ℚ := (List.range ny).map (fun j => Z 0 j)

/-! ## `find_psisurface` (source lines 254-294) -/

/-- End-point clipping block of `find_psisurface` (source lines 260-268).
The first block clips `r1` into `[Rmin, Rmax]` and rescales `z1` by the
absolute direction ratio; the second block's guard tests
`abs(z1 - r0) > 1e-6`, comparing the z-coordinate against `r0` —
transcribed exactly as in the source. -/
def clip_end (eq : Equilibrium) (r0 z0 r1 z1 : ℚ) : ℚ × ℚ :=
  let rz :=
    if |r1 - r0| > 1/1000000 then
      let rclip := npClip r1 eq.Rmin eq.Rmax
      (rclip, z0 + (z1 - z0) * |(rclip - r0) / (r1 - r0)|)
    else (r1, z1)
  if |rz.2 - r0| > 1/1000000 then
    let zclip := npClip rz.2 eq.Zmin eq.Zmax
    (r0 + (rz.1 - r0) * |(zclip - z0) / (rz.2 - z0)|, zclip)
  else (rz.1, rz.2)

/-- The normalised values `find_psisurface` samples along its clipped ray
(`pnorm = psifunc(r, z, grid=False)`, source line 276). -/
def ray_pnorm (eq : Equilibrium) (psifunc : ℚ → ℚ → ℚ) (r0 z0 r1 z1 : ℚ) (n : ℕ) :
    List ℚ :=
  (List.zip (linspace r0 (clip_end eq r0 z0 r1 z1).1 n)
            (linspace z0 (clip_end eq r0 z0 r1 z1).2 n)).map (fun p => psifunc p.1 p.2)

/-- `find_psisurface` (source lines 254-294), with the `axis` plotting
argument omitted (plotting is out of scope).  `psival` is either a scalar
(`Sum.inl`) or a sequence (`Sum.inr`, any object with `__len__`); the result
is a single `(r, z)` crossing point for a scalar target and the raw
sampled-ray coordinate arrays for a sequence target. -/
def find_psisurface (eq : Equilibrium) (psifunc : ℚ → ℚ → ℚ) (r0 z0 r1 z1 : ℚ)
    (psival : ℚ ⊕ List ℚ) (n : ℕ) :
    (ℚ × ℚ) ⊕ (List ℚ × List ℚ) :=
  let rz1 := clip_end eq r0 z0 r1 z1
  let r := linspace r0 rz1.1 n
  let z := linspace z0 rz1.2 n
  let pnorm := ray_pnorm eq psifunc r0 z0 r1 z1 n
  match psival with
  | Sum.inr _ => Sum.inr (r, z)
  | Sum.inl pv =>
    let idx := npArgmaxBool (pnorm.map (fun v => decide (v > pv)))
    -- f is the interpolation weight between sample idx and its predecessor;
    -- when idx = 0 the predecessor index -1 denotes the LAST sample (Python
    -- negative indexing).  A zero denominator yields 0 in ℚ (numpy: nan).
    let f := (pyGet pnorm (idx : ℤ) - pv) /
             (pyGet pnorm (idx : ℤ) - pyGet pnorm ((idx : ℤ) - 1))
    Sum.inl ((1 - f) * pyGet r (idx : ℤ) + f * pyGet r ((idx : ℤ) - 1),
             (1 - f) * pyGet z (idx : ℤ) + f * pyGet z ((idx : ℤ) - 1))

/-! ## `find_critical` (source lines 12-173) -/

/-- `CRITERIA = 1e-6` (source line 8). -/
def CRITERIA : ℚ := 1/1000000

/-- `MAX_COUNT = 128` (source line 9). -/
def MAX_COUNT : ℕ := 128

/-- Squared `(r, z)`-distance between two critical points, as used by
`remove_dup` and the sort keys. -/
def sqdist (p q : CriticalPoint) : ℚ := (p.1 - q.1) ^ 2 + (p.2.1 - q.2.1) ^ 2

/-- `Bp2` (source line 27): poloidal-field magnitude squared at grid node
`(i, j)`, evaluated through the interpolant. -/
def Bp2 (f : SplineFn) (R Z : ℕ → ℕ → ℚ) (i j : ℕ) : ℚ :=
  (f 1 0 (R i j) (Z i j) ^ 2 + f 0 1 (R i j) (Z i j) ^ 2) / R i j ^ 2

/-- The strict 8-neighbour local-minimum test on `Bp2` (source lines
44-53). -/
def isLocalMin (f : SplineFn) (R Z : ℕ → ℕ → ℚ) (i j : ℕ) : Bool :=
  decide (Bp2 f R Z i j < Bp2 f R Z (i+1) (j+1)) &&
  decide (Bp2 f R Z i j < Bp2 f R Z (i+1) j) &&
  decide (Bp2 f R Z i j < Bp2 f R Z (i+1) (j-1)) &&
  decide (Bp2 f R Z i j < Bp2 f R Z (i-1) (j+1)) &&
  decide (Bp2 f R Z i j < Bp2 f R Z (i-1) j) &&
  decide (Bp2 f R Z i j < Bp2 f R Z (i-1) (j-1)) &&
  decide (Bp2 f R Z i j < Bp2 f R Z i (j+1)) &&
  decide (Bp2 f R Z i j < Bp2 f R Z i (j-1))

/-- One candidate's Newton refinement (source lines 62-106): drive
`(Br, Bz)` to zero starting from the seed `(R0, Z0)`; on convergence
classify the point as X-point (`true`) or O-point (`false`) by the
finite-difference discriminant on the raw `psi` array at the seed indices
`(i, j)`.  `none` models the `break` that discards the candidate.  The
`while True` loop is driven by fuel; since the `count > MAX_COUNT` cap
fires first, any fuel above `MAX_COUNT + 1` gives the source semantics.
The 2×2 solve `np.dot(inv(J), [Br, Bz])` is written with the adjugate
formula; an exactly singular `J` gives zero steps via `x / 0 = 0` and the
candidate is then discarded by the iteration cap (numpy would raise
`LinAlgError` there). -/
def newton_loop (f : SplineFn) (R Z psi : ℕ → ℕ → ℚ) (i j : ℕ)
    (R0 Z0 radius_sq : ℚ) :
    ℕ → ℚ → ℚ → ℕ → Option (Bool × CriticalPoint)
  | 0, _, _, _ => none
  | fuel + 1, R1, Z1, count =>
    let Br := -f 0 1 R1 Z1 / R1
    let Bz := f 1 0 R1 Z1 / R1
    if Br ^ 2 + Bz ^ 2 < CRITERIA then
      let dR := R 1 0 - R 0 0
      let dZ := Z 0 1 - Z 0 0
      let d2dr2 := (psi (i + 2) j - 2 * psi i j + psi (i - 2) j) / (2 * dR) ^ 2
      let d2dz2 := (psi i (j + 2) - 2 * psi i j + psi i (j - 2)) / (2 * dZ) ^ 2
      let d2drdz := ((psi (i + 2) (j + 2) - psi (i + 2) (j - 2)) / (4 * dZ) -
                     (psi (i - 2) (j + 2) - psi (i - 2) (j - 2)) / (4 * dZ)) / (4 * dR)
      let D := d2dr2 * d2dz2 - d2drdz ^ 2
      some (decide (D < 0), (R1, Z1, f 0 0 R1 Z1))
    else
      let J00 := -Br / R1 - f 1 1 R1 Z1 / R1
      let J01 := -f 0 2 R1 Z1 / R1
      let J10 := -Bz / R1 + f 2 0 R1 Z1 / R1
      let J11 := f 1 1 R1 Z1 / R1
      let det := J00 * J11 - J01 * J10
      let d0 := (J11 * Br - J01 * Bz) / det
      let d1 := (-J10 * Br + J00 * Bz) / det
      let R1n := R1 - d0
      let Z1n := Z1 - d1
      let countn := count + 1
      if (R1n - R0) ^ 2 + (Z1n - Z0) ^ 2 > radius_sq ∨ countn > MAX_COUNT then none
      else newton_loop f R Z psi i j R0 Z0 radius_sq fuel R1n Z1n countn

/-- The interior grid scan (source lines 42-106): seed at every strict
local minimum of `Bp2` over `i, j ∈ [2, n-2)`, refine with `newton_loop`,
and collect the raw `(xpoint, opoint)` candidate lists in scan order. -/
def scan_critical (f : SplineFn) (R Z psi : ℕ → ℕ → ℚ) (nx ny : ℕ) :
    List CriticalPoint × List CriticalPoint :=
  let dR := R 1 0 - R 0 0
  let dZ := Z 0 1 - Z 0 0
  let radius_sq := 9 * (dR ^ 2 + dZ ^ 2)
  ((List.range (nx - 4)).map (fun a => a + 2)).foldl (fun acc i =>
    ((List.range (ny - 4)).map (fun a => a + 2)).foldl (fun acc j =>
      if isLocalMin f R Z i j then
        match newton_loop f R Z psi i j (R i j) (Z i j) radius_sq
            (MAX_COUNT + 2) (R i j) (Z i j) 0 with
        | none => acc
        | some (isX, p) =>
          if isX then (acc.1 ++ [p], acc.2) else (acc.1, acc.2 ++ [p])
      else acc) acc) ([], [])

/-- Accumulator loop of `remove_dup` (source lines 110-121): a point is
kept iff no already-kept point lies within squared distance `1e-5`; kept
points are appended in encounter order. -/
def remove_dup_go : List CriticalPoint → List CriticalPoint → List CriticalPoint
  | [], result => result
  | p :: rest, result =>
    if result.any (fun p2 => decide (sqdist p p2 < 1/100000)) then
      remove_dup_go rest result
    else
      remove_dup_go rest (result ++ [p])

/-- `remove_dup` (source lines 110-121). -/
def remove_dup (points : List CriticalPoint) : List CriticalPoint :=
  remove_dup_go points []

/-- The reference point the source sorts O-points towards (source lines
131-132): `(0.5*(R[-1,0] - R[0,0]), 0.5*(Z[0,-1] - Z[0,0]))` — the
half-extent of the domain, which agrees with the geometric midpoint only
when the domain's minimum coordinates are zero. -/
def domain_ref (R Z : ℕ → ℕ → ℚ) (nx ny : ℕ) : ℚ × ℚ :=
  (1/2 * (R (nx - 1) 0 - R 0 0), 1/2 * (Z 0 (ny - 1) - Z 0 0))

/-- O-point sort key (source line 134): squared distance to
`domain_ref`. -/
def okey (ref : ℚ × ℚ) (p : CriticalPoint) : ℚ :=
  (p.1 - ref.1) ^ 2 + (p.2.1 - ref.2) ^ 2

/-- X-point sort key (source line 171): squared difference of the field
value to the primary O-point's field value. -/
def xkey (psi_axis : ℚ) (p : CriticalPoint) : ℚ := (p.2.2 - psi_axis) ^ 2

/-- The `discard_xpoints` filter test for one X-point (source lines
141-164), given the primary O-point `(Ro, Zo, Po)`: sample the field on
the 64-point straight line from the O-point to the X-point, flip its sign
when the X-point value is below the O-point value, and keep the X-point
iff the field does not overshoot by more than 0.1 percent before the
X-point and the line's minimum lies within squared distance `1e-4` of the
O-point. -/
def keep_xpt (f : SplineFn) (Ro Zo Po : ℚ) (xpt : CriticalPoint) : Bool :=
  let rline := linspace Ro xpt.1 64
  let zline := linspace Zo xpt.2.1 64
  let pline0 := (List.zip rline zline).map (fun p => f 0 0 p.1 p.2)
  let pline := if xpt.2.2 < Po then pline0.map (fun v => -v) else pline0
  let maxp := npAmax pline
  if (maxp - pyGet pline (-1)) / (maxp - pyGet pline 0) > 1/1000 then false
  else
    let ind := npArgmin pline
    if (pyGet rline (ind : ℤ) - Ro) ^ 2 + (pyGet zline (ind : ℤ) - Zo) ^ 2 > 1/10000 then
      false
    else true

/-- `find_critical` (source lines 12-173).  The interpolant is built by the
injected factory (`interpolate.RectBivariateSpline(R[:,0], Z[0,:], psi)`).
Python's stable in-place `list.sort(key=...)` is modelled by
`List.mergeSort` with the non-strict key comparison.  When no O-point
survives deduplication the source prints a warning and returns both lists
unsorted. -/
def find_critical (mk : SplineFactory) (R Z psi : ℕ → ℕ → ℚ) (nx ny : ℕ)
    (discard_xpoints : Bool) : List CriticalPoint × List CriticalPoint :=
  let f := mk.build (colR R nx) (rowZ Z ny) psi
  let raw := scan_critical f R Z psi nx ny
  let xpoint := remove_dup raw.1
  let opoint := remove_dup raw.2
  if opoint.isEmpty then (opoint, xpoint)
  else
    let ref := domain_ref R Z nx ny
    let opoint := opoint.mergeSort (fun a b => decide (okey ref a ≤ okey ref b))
    let xpoint :=
      if discard_xpoints then
        let o := opoint.headD (0, 0, 0)
        let xpt_keep := xpoint.filter (keep_xpt f o.1 o.2.1 o.2.2)
        if 1 ≤ xpt_keep.length then xpt_keep else xpoint
      else xpoint
    let psi_axis := (opoint.headD (0, 0, 0)).2.2
    let xpoint := xpoint.mergeSort (fun a b =>
      decide (xkey psi_axis a ≤ xkey psi_axis b))
    (opoint, xpoint)

/-! ## `core_mask` (source lines 176-252) -/

/-- The mutable mask array, as a total function on indices; cells outside
the grid keep their initial value `0`. -/
abbrev Mask := ℕ → ℕ → ℚ

/-- Point update of a mask (`mask[i, j] = v`). -/
def mset (m : Mask) (c : ℕ × ℕ) (v : ℚ) : Mask :=
  fun a b => if a = c.1 ∧ b = c.2 then v else m a b

/-- `np.clip([c-1, c, c+1], 0, n-1)`: the (possibly repeating) 3-element
index window around `c`.  The lower clip at 0 is `ℕ` truncated
subtraction. -/
def clip3 (c n : ℕ) : List ℕ := [min (n - 1) (c - 1), min (n - 1) c, min (n - 1) (c + 1)]

/-- Nearest grid index to a physical point `(rv, zv)`:
`(np.argmin(abs(R[:,0] - rv)), np.argmin(abs(Z[0,:] - zv)))` (source lines
207-208 and 216-217). -/
def nearest_index (R Z : ℕ → ℕ → ℚ) (nx ny : ℕ) (rv zv : ℚ) : ℕ × ℕ :=
  (npArgmin ((colR R nx).map (fun x => |x - rv|)),
   npArgmin ((rowZ Z ny).map (fun x => |x - zv|)))

/-- The nearest grid indices of all X-points (source lines 204-209). -/
def xpt_inds (R Z : ℕ → ℕ → ℚ) (nx ny : ℕ) (xpoint : List CriticalPoint) :
    List (ℕ × ℕ) :=
  xpoint.map (fun p => nearest_index R Z nx ny p.1 p.2.1)

/-- The common shape of the two X-point neighbourhood passes of
`core_mask` (source lines 210-213 and 244-250): for every listed index
pair, write `w (i, j)` into every cell of its clipped 3×3 window. -/
def nbhdWrite (w : ℕ × ℕ → ℚ) (nx ny : ℕ) (inds : List (ℕ × ℕ)) (m : Mask) : Mask :=
  inds.foldl (fun m c =>
    (clip3 c.1 nx).foldl (fun m i =>
      (clip3 c.2 ny).foldl (fun m j => mset m (i, j) (w (i, j))) m) m) m

/-- Pre-fill blocking pass (source lines 210-213): every cell of every
clipped 3×3 X-point neighbourhood is set to the transient value `2`. -/
def blockNbhd (nx ny : ℕ) (inds : List (ℕ × ℕ)) (m : Mask) : Mask :=
  nbhdWrite (fun _ => 2) nx ny inds m

/-- Post-fill resolution pass (source lines 244-250): every cell of every
3×3 X-point neighbourhood becomes `1` if its normalised flux is < 1 and
`0` otherwise. -/
def resolveNbhd (psin : ℕ → ℕ → ℚ) (nx ny : ℕ) (inds : List (ℕ × ℕ)) (m : Mask) :
    Mask :=
  nbhdWrite (fun c => if psin c.1 c.2 < 1 then 1 else 0) nx ny inds m

/-- The row-scan inner loop of the flood fill (source lines 229-241),
processing the popped cell `(i, j)`: mark it inside, push the unvisited
vertical neighbours that satisfy `psin < 1.0`, and march right along the
row while the next cell satisfies the same condition.  Python's
`stack.append`/`stack.pop` work at the list tail, modelled here by `cons`
at the list head.  The loop advances `j` at most `ny` times, so fuel `ny`
reproduces the source; the fuel-exhausted branch still marks the current
cell, mirroring the loop body's first statement. -/
def rowScan (psin : ℕ → ℕ → ℚ) (nx ny i : ℕ) :
    ℕ → ℕ → Mask → List (ℕ × ℕ) → Mask × List (ℕ × ℕ)
  | 0, j, m, st => (mset m (i, j) 1, st)
  | fuel + 1, j, m, st =>
    let m1 := mset m (i, j) 1
    let st1 :=
      if i + 1 < nx ∧ psin (i + 1) j < 1 ∧ m1 (i + 1) j < 1/2 then (i + 1, j) :: st else st
    let st2 :=
      if 0 < i ∧ psin (i - 1) j < 1 ∧ m1 (i - 1) j < 1/2 then (i - 1, j) :: st1 else st1
    if j = ny - 1 then (m1, st2)
    else if 1 ≤ psin i (j + 1) ∨ 1/2 < m1 i (j + 1) then (m1, st2)
    else rowScan psin nx ny i fuel (j + 1) m1 st2

/-- The outer work-stack loop of the flood fill (source lines 221-241):
pop a cell, push its left neighbour when it qualifies, then run the row
scan.  Fuel-driven; `fill_fuel` below is ample for the source's
terminating loop, and every invariant proved about the fill holds for
every fuel value. -/
def floodLoop (psin : ℕ → ℕ → ℚ) (nx ny : ℕ) :
    ℕ → Mask → List (ℕ × ℕ) → Mask
  | 0, m, _ => m
  | _ + 1, m, [] => m
  | fuel + 1, m, (i, j) :: rest =>
    let st0 :=
      if 0 < j ∧ psin i (j - 1) < 1 ∧ m i (j - 1) < 1/2 then (i, j - 1) :: rest else rest
    let ms := rowScan psin nx ny i ny j m st0
    floodLoop psin nx ny fuel ms.1 ms.2

/-- Fuel bound for the outer fill loop. -/
def fill_fuel (nx ny : ℕ) : ℕ := (nx + 1) * (ny + 1) * (2 * ny + 8)

/-- Boundary flux value resolution (source lines 194-195): the supplied
`psi_bndry` if any, else the field value of the first X-point; `none` when
neither exists (`xpoint[0]` would raise `IndexError`). -/
def core_boundary (xpoint : List CriticalPoint) (psi_bndry : Option ℚ) : Option ℚ :=
  match psi_bndry with
  | some v => some v
  | none => xpoint.head?.map (fun p => p.2.2)

/-- Normalised flux `(psi - psi_axis) / (psi_bndry - psi_axis)` (source
line 198).  Coinciding axis/boundary values give `x / 0 = 0` in ℚ (numpy:
`inf`/`nan` warnings, which the spec calls out as unguarded). -/
def core_psin (psi : ℕ → ℕ → ℚ) (psi_axis psi_bndry : ℚ) : ℕ → ℕ → ℚ :=
  fun i j => (psi i j - psi_axis) / (psi_bndry - psi_axis)

/-- The fill's start cell (source lines 216-217): the grid cell nearest
the primary O-point. -/
def core_seed (R Z : ℕ → ℕ → ℚ) (nx ny : ℕ) (op : CriticalPoint) : ℕ × ℕ :=
  nearest_index R Z nx ny op.1 op.2.1

/-- `core_mask` (source lines 176-252).  `none` models the `IndexError`
raised on an empty `opoint` list (line 193) or on a missing boundary value
(line 195); otherwise the returned mask is the blocked, flood-filled and
saddle-resolved array. -/
def core_mask (R Z psi : ℕ → ℕ → ℚ) (nx ny : ℕ)
    (opoint xpoint : List CriticalPoint) (psi_bndry : Option ℚ) : Option Mask :=
  match opoint, core_boundary xpoint psi_bndry with
  | [], _ => none
  | _, none => none
  | op :: _, some pb =>
    let psin := core_psin psi op.2.2 pb
    let inds := xpt_inds R Z nx ny xpoint
    let m0 := blockNbhd nx ny inds (fun _ _ => 0)
    let seed := core_seed R Z nx ny op
    let mf := floodLoop psin nx ny (fill_fuel nx ny) m0 [seed]
    some (resolveNbhd psin nx ny inds mf)

/-! ## Connectivity vocabulary for the mask claims -/

/-- 4-adjacency of grid cells. -/
def Adj (a b : ℕ × ℕ) : Prop :=
  (a.1 = b.1 ∧ (a.2 = b.2 + 1 ∨ b.2 = a.2 + 1)) ∨
  (a.2 = b.2 ∧ (a.1 = b.1 + 1 ∨ b.1 = a.1 + 1))

/-- 4-connected reachability from `s` through cells satisfying `good`
(both endpoints included). -/
inductive Conn (good : ℕ × ℕ → Prop) (s : ℕ × ℕ) : ℕ × ℕ → Prop
  | refl : good s → Conn good s s
  | step {c d : ℕ × ℕ} : Conn good s c → good d → Adj c d → Conn good s d

/-- Membership of a cell in some clipped 3×3 X-point neighbourhood. -/
def inNbhd (nx ny : ℕ) (inds : List (ℕ × ℕ)) (c : ℕ × ℕ) : Prop :=
  ∃ p ∈ inds, c.1 ∈ clip3 p.1 nx ∧ c.2 ∈ clip3 p.2 ny

instance (nx ny : ℕ) (inds : List (ℕ × ℕ)) (c : ℕ × ℕ) :
    Decidable (inNbhd nx ny inds c) := by
  unfold inNbhd
  infer_instance

/-! ## `find_separatrix` (source lines 296-342) and `find_safety`
(source lines 345-436) -/

/-- Resolution of the `opoint`/`xpoint` defaults (source lines 304-305 and
357-358): when either argument is `None`, both are recomputed by
`find_critical` on the equilibrium's grid. -/
def resolve_critical (mk : SplineFactory) (eq : Equilibrium) (psi : ℕ → ℕ → ℚ)
    (opoint xpoint : Option (List CriticalPoint)) :
    List CriticalPoint × List CriticalPoint :=
  match opoint, xpoint with
  | some o, some x => (o, x)
  | _, _ => find_critical mk eq.R eq.Z psi eq.nx eq.ny true

/-- `np.linspace(0, 2*pi, n_theta, endpoint=False)` (source lines 312 and
372). -/
def theta_grid (pi : ℚ) (n_theta : ℕ) : List ℚ :=
  (List.range n_theta).map (fun (k : ℕ) => 2 * pi * (k : ℚ) / (n_theta : ℚ))

/-- `find_separatrix` (source lines 296-342), with the `axis` plotting
argument omitted.  `none` models an uncaught exception: `IndexError` when
a resolved critical-point list is empty (`opoint[0]`/`xpoint[0]`, line
307) or when `n_theta < 2` (`theta_grid[1]`, line 313).  Each returned
tuple is the traced `(r, z)` (scalar crossing or sampled arrays, as
`find_psisurface` returns it) together with the primary X-point
coordinates. -/
def find_separatrix (mk : SplineFactory) (rops : RealOps) (eq : Equilibrium)
    (opoint xpoint : Option (List CriticalPoint)) (n_theta : ℕ)
    (psi : Option (ℕ → ℕ → ℚ)) (psival : ℚ ⊕ List ℚ) :
    Option (List (((ℚ × ℚ) ⊕ (List ℚ × List ℚ)) × ℚ × ℚ)) :=
  let psiA := psi.getD eq.psiFn
  let oxr := resolve_critical mk eq psiA opoint xpoint
  match oxr.1, oxr.2 with
  | [], _ => none
  | _, [] => none
  | o :: _, x :: _ =>
    if n_theta < 2 then none
    else
      let psinorm : ℕ → ℕ → ℚ := fun i j => (psiA i j - o.2.2) / (x.2.2 - o.2.2)
      let psifunc0 := mk.build (colR eq.R eq.nx) (rowZ eq.Z eq.ny) psinorm
      let psifunc : ℚ → ℚ → ℚ := fun r z => psifunc0 0 0 r z
      let r0 := o.1
      let z0 := o.2.1
      let tg := theta_grid rops.pi n_theta
      let dtheta := tg.getD 1 0 - tg.getD 0 0
      -- lines 315-318: arctan2 normalised into [0, 2*pi) via the
      -- boolean-mask arithmetic of the source (strict `> 0` here).
      let xt0 := rops.atan2 (x.1 - r0) (x.2.1 - z0)
      let xpoint_theta :=
        xt0 * (if xt0 > 0 then 1 else 0) + (xt0 + 2 * rops.pi) * (if xt0 < 0 then 1 else 0)
      let tg :=
        if tg.any (fun θ => decide (|θ - xpoint_theta| < 1/1000)) then
          tg.map (fun θ => θ + dtheta / 2)
        else tg
      some (tg.map (fun θ =>
        (find_psisurface eq psifunc r0 z0
          (r0 + 10 * rops.sin θ) (z0 + 10 * rops.cos θ) psival 128,
         x.1, x.2.1)))

/-- Python exceptions that `find_safety` can raise. -/
inductive PyExc
  | typeError
  | indexError
deriving DecidableEq

/-- Observable outcome of a `find_safety` call: an uncaught exception, a
`ValueError` object handed back through a normal `return`, or a normally
returned safety-factor array. -/
inductive FindSafetyOutcome
  | raised (e : PyExc)
  | returned_value_error (msg : String)
  | returned_q (q : List ℚ)
deriving DecidableEq

/-- `find_safety` (source lines 345-436).  Control flow of the source:
after resolving `opoint`/`xpoint`, an empty X-point list makes the
function execute `return ValueError(...)` (line 364) — the exception
object is returned as an ordinary value, not raised.  Otherwise line 366
rebinds the `psi_norm` parameter to the normalised-flux 2D array
(discarding any requested flux levels), line 368 builds the interpolant,
and line 370 executes `r0, z0 = opoint[0][2]`, which unpacks the scalar
stored field value into two targets and raises `TypeError` (or
`IndexError` first, when the O-point list is empty).  Every line after 370
(the ray tracing over `psi_range`, lines 372-436) is unreachable. -/
def find_safety (mk : SplineFactory) (rops : RealOps) (eq : Equilibrium)
    (psi_norm : Option (ℚ ⊕ List ℚ)) (n_psi n_theta : ℕ)
    (psi : Option (ℕ → ℕ → ℚ)) (opoint xpoint : Option (List CriticalPoint)) :
    FindSafetyOutcome :=
  let psiA := psi.getD eq.psiFn
  let oxr := resolve_critical mk eq psiA opoint xpoint
  if oxr.2.isEmpty then
    .returned_value_error "No x-point from q-saftey: no separatrix"
  else
    match oxr.1 with
    | [] => .raised .indexError
    | o :: _ =>
      let psi_norm2 : ℕ → ℕ → ℚ :=
        fun i j => (psiA i j - o.2.2) / ((oxr.2.headD (0, 0, 0)).2.2 - o.2.2)
      let psi_func := mk.build (colR eq.R eq.nx) (rowZ eq.Z eq.ny) psi_norm2
      .raised .typeError

/-- The unclipped ray end point passed to `find_psisurface` inside
`find_safety`'s tracing loop (source lines 410-412):
`(r0 + 8.0*np.sin(theta), z0 + 8.0 + np.cos(theta))`.  The z-component
adds `8.0 + cos(theta)` — transcribed exactly as written in the source
(compare `find_separatrix`, which uses `z0 + 10.0*np.cos(theta)`).  At
runtime this expression is unreachable because line 370 raises first. -/
def find_safety_ray_end (rops : RealOps) (r0 z0 θ : ℚ) : ℚ × ℚ :=
  (r0 + 8 * rops.sin θ, z0 + 8 + rops.cos θ)

/-! ## Spec-side vocabulary and concrete capability instances -/

/-- Stack/mask invariant of the scanline flood fill, used for the
connectivity claim.  `pend` designates cells about to be marked inside
(the popped cell at the start of its row scan); stack entries may cite a
pending cell as their inside-marked neighbour. -/
structure FillInv (psin : ℕ → ℕ → ℚ) (nx ny : ℕ) (inds : List (ℕ × ℕ))
    (seed : ℕ × ℕ) (pend : ℕ × ℕ → Prop) (m : Mask) (st : List (ℕ × ℕ)) : Prop where
  vals : ∀ c : ℕ × ℕ, m c.1 c.2 = 0 ∨ m c.1 c.2 = 1 ∨ m c.1 c.2 = 2
  nbhd_two : ∀ c : ℕ × ℕ, inNbhd nx ny inds c → m c.1 c.2 = 2
  two_nbhd : ∀ c : ℕ × ℕ, m c.1 c.2 = 2 → inNbhd nx ny inds c
  one_psin : ∀ c : ℕ × ℕ, m c.1 c.2 = 1 → psin c.1 c.2 < 1 ∨ c = seed
  one_conn : ∀ c : ℕ × ℕ, m c.1 c.2 = 1 → Conn (fun d => m d.1 d.2 = 1) seed c
  st_ok : ∀ c ∈ st, (psin c.1 c.2 < 1 ∨ c = seed) ∧ ¬ inNbhd nx ny inds c ∧
    (c = seed ∨ ∃ p : ℕ × ℕ, (m p.1 p.2 = 1 ∨ pend p) ∧ Adj p c)

/-- The weaker fill invariant backing the unconditional value/flux
conclusions (no connectivity or neighbourhood-blocking bookkeeping). -/
structure FillBasic (psin : ℕ → ℕ → ℚ) (nx ny : ℕ) (inds : List (ℕ × ℕ))
    (seed : ℕ × ℕ) (m : Mask) (st : List (ℕ × ℕ)) : Prop where
  vals : ∀ c : ℕ × ℕ, m c.1 c.2 = 0 ∨ m c.1 c.2 = 1 ∨ m c.1 c.2 = 2
  two_nbhd : ∀ c : ℕ × ℕ, m c.1 c.2 = 2 → inNbhd nx ny inds c
  one_psin : ∀ c : ℕ × ℕ, m c.1 c.2 = 1 → psin c.1 c.2 < 1 ∨ c = seed
  st_psin : ∀ c ∈ st, psin c.1 c.2 < 1 ∨ c = seed

/-- Modelled from the spec's words in claim C7: the geometric midpoint
`((Rmin + Rmax)/2, (Zmin + Zmax)/2)` of the grid domain, for comparison
with `domain_ref`, the reference point the code actually uses. -/
def geo_mid (R Z : ℕ → ℕ → ℚ) (nx ny : ℕ) : ℚ × ℚ :=
  ((R 0 0 + R (nx - 1) 0) / 2, (Z 0 0 + Z 0 (ny - 1)) / 2)

/-- A trivial interpolation factory: always the zero interpolant. -/
def zeroFactory : SplineFactory := ⟨fun _ _ _ => fun _ _ _ _ => 0⟩

/-- Concrete real-operations instance used by witnesses: an arbitrary
rational standing in for `pi`, and simple rational stand-ins for the
transcendentals with the exact values `sin 0 = 0`, `cos 0 = 1`. -/
def testROps : RealOps where
  pi := 355/113
  sin := fun θ => if θ = 0 then 0 else 1/2
  cos := fun θ => if θ = 0 then 1 else 1/2
  atan2 := fun _ _ => 7

/-- A small concrete equilibrium used by witnesses and counterexamples:
3×3 integer grid, zero flux, bounding box `[0,10] × [0,1]`. -/
def testEq : Equilibrium where
  R := fun i _ => (i : ℚ)
  Z := fun _ j => (j : ℚ)
  nx := 3
  ny := 3
  psiFn := fun _ _ => 0
  Rmin := 0
  Rmax := 10
  Zmin := 0
  Zmax := 1

/-- The interpolation weight `f` of `find_psisurface` (source line 286) in
the no-crossing case `idx = 0`: it interpolates between sample 0 and the
last sample (Python index `-1`). -/
def ray_fw (eq : Equilibrium) (psifunc : ℚ → ℚ → ℚ) (r0 z0 r1 z1 pv : ℚ) (n : ℕ) : ℚ :=
  ((ray_pnorm eq psifunc r0 z0 r1 z1 n).headD 0 - pv) /
  ((ray_pnorm eq psifunc r0 z0 r1 z1 n).headD 0 -
    pyGet (ray_pnorm eq psifunc r0 z0 r1 z1 n) (-1))

/-- Grid for the primary-O-point counterexample: a 9×7 uniform grid with
`R` running from 1 to 9 (so `Rmin ≠ 0`) and `Z` from 0 to 6. -/
def c7R : ℕ → ℕ → ℚ := fun i _ => 1 + (i : ℚ)

/-- Height array of the counterexample grid. -/
def c7Z : ℕ → ℕ → ℚ := fun _ j => (j : ℚ)

/-- Flux array of the counterexample: `psi[i,j] = i² + j²`, whose 2-cell
finite-difference discriminant is `D = 4 > 0` everywhere, so every
converged candidate classifies as an O-point. -/
def c7psi : ℕ → ℕ → ℚ := fun i j => (i : ℚ) ^ 2 + (j : ℚ) ^ 2

/-- Interpolant capability for the counterexample: the r-derivative is 0
everywhere and the z-derivative vanishes exactly at `(3,3)` and `(6,3)`
(grid nodes `(2,3)` and `(5,3)`), making those the only strict local
minima of `Bp2` and instant Newton fixed points; the value query returns
`r + z`. -/
def c7f : SplineFn := fun dx dy r z =>
  if dx = 0 ∧ dy = 1 then (if (r = 3 ∧ z = 3) ∨ (r = 6 ∧ z = 3) then 0 else 1)
  else if dx = 1 ∧ dy = 0 then 0
  else if dx = 0 ∧ dy = 0 then r + z
  else 0

/-- Factory handing out `c7f` regardless of the data arrays. -/
def c7mk : SplineFactory := ⟨fun _ _ _ => c7f⟩

/-- 3×3 grid for the core-mask counterexample (`R = i`, `Z = j`). -/
def c4R : ℕ → ℕ → ℚ := fun i _ => (i : ℚ)

/-- Height array of the core-mask counterexample grid. -/
def c4Z : ℕ → ℕ → ℚ := fun _ j => (j : ℚ)

/-- Flux array of the core-mask counterexample: constantly 5, so the
normalised flux is 5 ≥ 1 at every cell. -/
def c4psi : ℕ → ℕ → ℚ := fun _ _ => 5

/-! ## Generic helper lemmas -/

theorem linspace_length (a b : ℚ) (n : ℕ) : (linspace a b n).length = n := by
  simp only [linspace, List.length_map, List.length_range]

theorem linspace_headD (a b : ℚ) (n : ℕ) (h : 1 ≤ n) :
    (linspace a b n).headD 0 = a := by
  cases n with
  | zero => omega
  | succ m => simp [linspace, List.range_succ_eq_map]

theorem sqdist_comm (p q : CriticalPoint) : sqdist p q = sqdist q p := by
  unfold sqdist; ring

theorem pyGet_zero (l : List ℚ) : pyGet l 0 = l.headD 0 := by
  cases l <;> simp [pyGet]

theorem npArgmaxBool_all_false (l : List Bool) (h : ∀ b ∈ l, b = false) :
    npArgmaxBool l = 0 := by
  cases l with
  | nil => rfl
  | cons a rest =>
    cases a with
    | true => exact absurd (h true (by simp)) (by simp)
    | false =>
      have hany : rest.any (fun b => b) = false := by
        simp only [List.any_eq_false]
        intro x hx
        simp [h x (List.mem_cons_of_mem _ hx)]
      simp [npArgmaxBool, hany]

/-! ## Claim C1: empty X-point list in `find_safety` -/

/-- C1: whenever the resolved X-point sequence is empty (whether supplied
empty or found empty by `find_critical`), `find_safety` executes
`return ValueError(...)`: the `ValueError` is handed back as the
function's return value — it is not raised.  (The claim says it is
raised; this theorem documents the actual behaviour for the code-bug
record.) -/
theorem find_safety_empty_xpoint_returns_value_error
    (mk : SplineFactory) (rops : RealOps) (eq : Equilibrium)
    (psi_norm : Option (ℚ ⊕ List ℚ)) (n_psi n_theta : ℕ)
    (psi : Option (ℕ → ℕ → ℚ)) (opoint xpoint : Option (List CriticalPoint))
    (h : (resolve_critical mk eq (psi.getD eq.psiFn) opoint xpoint).2 = []) :
    find_safety mk rops eq psi_norm n_psi n_theta psi opoint xpoint =
      FindSafetyOutcome.returned_value_error "No x-point from q-saftey: no separatrix" := by
  unfold find_safety
  simp [h]

/-- Witness for C1 at a concrete call with an explicitly empty supplied
X-point list. -/
theorem find_safety_empty_xpoint_returns_value_error_witness :
    (resolve_critical zeroFactory testEq ((none : Option (ℕ → ℕ → ℚ)).getD testEq.psiFn)
        (some [(1, 1, 0)]) (some [])).2 = [] ∧
    find_safety zeroFactory testROps testEq none 1 128 none (some [(1, 1, 0)]) (some []) =
      FindSafetyOutcome.returned_value_error "No x-point from q-saftey: no separatrix" :=
  ⟨rfl, find_safety_empty_xpoint_returns_value_error zeroFactory testROps testEq
    none 1 128 none (some [(1, 1, 0)]) (some []) rfl⟩

/-! ## Claim C2: requested flux levels are ignored and the call crashes -/

/-- C2 (code bug): with one O-point and one X-point supplied and the two
flux levels `[0.3, 0.6]` requested, `find_safety` never returns a
two-element safety-factor sequence: line 366 overwrites the `psi_norm`
argument with the normalised-flux array, and line 370
(`r0, z0 = opoint[0][2]`) raises `TypeError`. -/
theorem find_safety_requested_levels_never_traced :
    find_safety zeroFactory testROps testEq (some (Sum.inr [3/10, 6/10])) 2 128
      none (some [(1, 0, 0)]) (some [(2, 0, 1)]) =
      FindSafetyOutcome.raised PyExc.typeError := rfl

/-! ## Claim C3: the safety-factor ray end point -/

/-- C3 (code bug): at `theta = 0` (where `sin 0 = 0`, `cos 0 = 1`) the ray
end point `find_safety` would pass to `find_psisurface` is
`(r0, z0 + 9)`, not the claimed `(r0 + 8*sin 0, z0 + 8*cos 0) = (r0, z0 + 8)`:
the source's z-component is `z0 + 8.0 + np.cos(theta)`.  (Moreover the
tracing loop is unreachable: `find_safety` raises `TypeError` at line 370
first — see `find_safety_requested_levels_never_traced`.) -/
theorem find_safety_ray_end_defect :
    find_safety_ray_end testROps 0 0 0 = (0, 9) ∧
    (0 + 8 * testROps.sin 0, 0 + 8 * testROps.cos 0) = ((0 : ℚ), 8) ∧
    ((0 : ℚ), (9 : ℚ)) ≠ (0, 8) := by decide

/-! ## Claim C6: end-point clipping -/

/-- C6 (code bug): with start `(5, 1/2)` and end `(5, 5)` on the box
`[0,10] × [0,1]`, both clip guards are skipped — the second because it
tests `abs(z1 - r0)` (z against r!) — and the sampled ray ends at
`z = 5`, far outside `[Zmin, Zmax] = [0, 1]`.  The sequence-target path is
used to read back the sampled coordinates. -/
theorem find_psisurface_end_not_clipped :
    find_psisurface testEq (fun _ _ => 0) 5 (1/2) 5 5 (Sum.inr [1]) 3 =
      Sum.inr ([5, 5, 5], [1/2, 11/4, 5]) ∧
    ¬ ((5 : ℚ) ≤ testEq.Zmax) := by decide

/-! ## Claim C10: sequence-valued `psival` -/

/-- C10: when `psival` is a sequence, `find_psisurface` performs no
crossing computation: it returns the full `n`-element sampled coordinate
arrays of the clipped ray (starting at `(r0, z0)`). -/
theorem find_psisurface_sequence_returns_sampled_ray
    (eq : Equilibrium) (psifunc : ℚ → ℚ → ℚ) (r0 z0 r1 z1 : ℚ) (s : List ℚ) (n : ℕ) :
    find_psisurface eq psifunc r0 z0 r1 z1 (Sum.inr s) n =
      Sum.inr (linspace r0 (clip_end eq r0 z0 r1 z1).1 n,
               linspace z0 (clip_end eq r0 z0 r1 z1).2 n) ∧
    (linspace r0 (clip_end eq r0 z0 r1 z1).1 n).length = n ∧
    (linspace z0 (clip_end eq r0 z0 r1 z1).2 n).length = n ∧
    (1 ≤ n → (linspace r0 (clip_end eq r0 z0 r1 z1).1 n).headD 0 = r0 ∧
             (linspace z0 (clip_end eq r0 z0 r1 z1).2 n).headD 0 = z0) := by
  refine ⟨rfl, linspace_length .., linspace_length .., fun h => ⟨?_, ?_⟩⟩
  · exact linspace_headD _ _ _ h
  · exact linspace_headD _ _ _ h

/-- Witness for C10 at a concrete call. -/
theorem find_psisurface_sequence_returns_sampled_ray_witness :
    (1 ≤ 3 ∧
      (linspace 5 (clip_end testEq 5 (1/2) 5 5).1 3).headD 0 = 5) ∧
    (linspace (1/2) (clip_end testEq 5 (1/2) 5 5).2 3).length = 3 := by
  have h := find_psisurface_sequence_returns_sampled_ray testEq (fun _ _ => 0)
    5 (1/2) 5 5 [1] 3
  exact ⟨⟨by decide, (h.2.2.2 (by decide)).1⟩, h.2.2.1⟩

/-! ## Claim C5: ray that never crosses the target level -/

/-- C5 counterexample: sampling `psin = r/100` (never above the target 1)
along the ray from `(0,0)` to `(1,0)` makes `find_psisurface` return the
point `(100, 0)` — interpolated between sample 0 and the LAST sample via
Python's `-1` indexing — which is nowhere near the start point `(0, 0)`
the claim promises. -/
theorem find_psisurface_no_crossing_not_at_start :
    (ray_pnorm testEq (fun r _ => r/100) 0 0 1 0 5).all (fun v => decide ¬ (1 < v)) = true ∧
    find_psisurface testEq (fun r _ => r/100) 0 0 1 0 (Sum.inl 1) 5 = Sum.inl (100, 0) ∧
    ((100 : ℚ), (0 : ℚ)) ≠ (0, 0) := by decide

/-- C5 (amended): when no sampled value exceeds the scalar target the call
does not raise; `np.argmax` defaults the crossing index to 0 and the
result interpolates between sample 0 (the start point) and the last
sample with weight `ray_fw`; it equals the start point exactly when the
first sampled value already equals the target. -/
theorem find_psisurface_no_crossing_degenerate
    (eq : Equilibrium) (psifunc : ℚ → ℚ → ℚ) (r0 z0 r1 z1 pv : ℚ) (n : ℕ)
    (hn : 1 ≤ n)
    (hall : ∀ v ∈ ray_pnorm eq psifunc r0 z0 r1 z1 n, ¬ pv < v) :
    find_psisurface eq psifunc r0 z0 r1 z1 (Sum.inl pv) n =
      Sum.inl ((1 - ray_fw eq psifunc r0 z0 r1 z1 pv n) * r0 +
                 ray_fw eq psifunc r0 z0 r1 z1 pv n *
                   pyGet (linspace r0 (clip_end eq r0 z0 r1 z1).1 n) (-1),
               (1 - ray_fw eq psifunc r0 z0 r1 z1 pv n) * z0 +
                 ray_fw eq psifunc r0 z0 r1 z1 pv n *
                   pyGet (linspace z0 (clip_end eq r0 z0 r1 z1).2 n) (-1)) ∧
    ((ray_pnorm eq psifunc r0 z0 r1 z1 n).headD 0 = pv →
      find_psisurface eq psifunc r0 z0 r1 z1 (Sum.inl pv) n = Sum.inl (r0, z0)) := by
  have hidx : npArgmaxBool
      ((ray_pnorm eq psifunc r0 z0 r1 z1 n).map (fun v => decide (v > pv))) = 0 := by
    apply npArgmaxBool_all_false
    intro b hb
    rw [List.mem_map] at hb
    obtain ⟨v, hv, hbv⟩ := hb
    rw [← hbv]
    simpa using hall v hv
  have hmain : find_psisurface eq psifunc r0 z0 r1 z1 (Sum.inl pv) n =
      Sum.inl ((1 - ray_fw eq psifunc r0 z0 r1 z1 pv n) * r0 +
                 ray_fw eq psifunc r0 z0 r1 z1 pv n *
                   pyGet (linspace r0 (clip_end eq r0 z0 r1 z1).1 n) (-1),
               (1 - ray_fw eq psifunc r0 z0 r1 z1 pv n) * z0 +
                 ray_fw eq psifunc r0 z0 r1 z1 pv n *
                   pyGet (linspace z0 (clip_end eq r0 z0 r1 z1).2 n) (-1)) := by
    unfold find_psisurface
    dsimp only
    rw [hidx]
    rw [Nat.cast_zero, zero_sub, pyGet_zero, pyGet_zero, pyGet_zero,
      linspace_headD _ _ _ hn, linspace_headD _ _ _ hn]
    rfl
  refine ⟨hmain, fun hhead => ?_⟩
  have hfw : ray_fw eq psifunc r0 z0 r1 z1 pv n = 0 := by
    unfold ray_fw
    rw [hhead, sub_self, zero_div]
  rw [hmain, hfw]
  norm_num

/-- Witness for the amended C5 at the concrete no-crossing ray of the
counterexample. -/
theorem find_psisurface_no_crossing_degenerate_witness :
    (1 ≤ 5 ∧ (∀ v ∈ ray_pnorm testEq (fun r _ => r/100) 0 0 1 0 5, ¬ (1 : ℚ) < v)) ∧
    find_psisurface testEq (fun r _ => r/100) 0 0 1 0 (Sum.inl 1) 5 =
      Sum.inl ((1 - ray_fw testEq (fun r _ => r/100) 0 0 1 0 1 5) * 0 +
                 ray_fw testEq (fun r _ => r/100) 0 0 1 0 1 5 *
                   pyGet (linspace 0 (clip_end testEq 0 0 1 0).1 5) (-1),
               (1 - ray_fw testEq (fun r _ => r/100) 0 0 1 0 1 5) * 0 +
                 ray_fw testEq (fun r _ => r/100) 0 0 1 0 1 5 *
                   pyGet (linspace 0 (clip_end testEq 0 0 1 0).2 5) (-1)) := by
  refine ⟨⟨by decide, by decide⟩, ?_⟩
  exact (find_psisurface_no_crossing_degenerate testEq (fun r _ => r/100) 0 0 1 0 1 5
    (by decide) (by decide)).1

/-! ## Claim C9: separatrix trace count and landmark -/

/-- C9: with non-empty supplied critical-point lists and `n_theta ≥ 2`,
`find_separatrix` returns exactly `n_theta` tuples — one per angle of the
(possibly half-step-shifted) angle grid, in order — and every tuple
carries the primary X-point's `(r, z)` coordinates as its last two
components. -/
theorem find_separatrix_count_and_landmark
    (mk : SplineFactory) (rops : RealOps) (eq : Equilibrium)
    (o x : CriticalPoint) (ot xt : List CriticalPoint) (n_theta : ℕ)
    (psi : Option (ℕ → ℕ → ℚ)) (psival : ℚ ⊕ List ℚ)
    (hn : 2 ≤ n_theta) :
    ∃ l, find_separatrix mk rops eq (some (o :: ot)) (some (x :: xt)) n_theta psi psival =
        some l ∧
      l.length = n_theta ∧
      ∀ e ∈ l, e.2 = (x.1, x.2.1) := by
  unfold find_separatrix resolve_critical
  dsimp only
  rw [if_neg (by omega)]
  refine ⟨_, rfl, ?_, ?_⟩
  · rw [List.length_map, apply_ite List.length]
    simp [theta_grid, ite_self]
  · intro e he
    rw [List.mem_map] at he
    obtain ⟨θ, hθ, he⟩ := he
    rw [← he]

/-- Witness for C9: a concrete 2-angle trace returns a 2-element list. -/
theorem find_separatrix_count_and_landmark_witness :
    (find_separatrix zeroFactory testROps testEq (some [(1, 0, 0)]) (some [(2, 0, 1)])
        2 none (Sum.inl 1)).map List.length = some 2 := by
  obtain ⟨l, hl, hlen, _⟩ := find_separatrix_count_and_landmark zeroFactory testROps testEq
    (1, 0, 0) (2, 0, 1) [] [] 2 none (Sum.inl 1) (by decide)
  rw [hl]
  simpa using hlen

/-- Sorting with a rational key through `List.mergeSort` yields a list
sorted by that key (shared helper for the two sort sites of
`find_critical`). -/
theorem mergeSort_key_sorted (key : CriticalPoint → ℚ) (l : List CriticalPoint) :
    (l.mergeSort (fun a b => decide (key a ≤ key b))).Sorted
      (fun a b => key a ≤ key b) := by
  have h : (l.mergeSort (fun a b => decide (key a ≤ key b))).Pairwise
      (fun a b => (decide (key a ≤ key b)) = true) :=
    List.sorted_mergeSort
      (fun a b c h1 h2 => by
        simp only [decide_eq_true_eq] at h1 h2 ⊢
        exact le_trans h1 h2)
      (fun a b => by
        simp only [Bool.or_eq_true, decide_eq_true_eq]
        exact le_total _ _)
      l
  exact h.imp (fun hab => by simpa using hab)

/-! ## Claim C7: ordering of the returned O-points -/

/-- C7 counterexample: on a 9×7 grid with `R` from 1 to 9 (`Z` from 0 to
6) the geometric midpoint of the domain is `(5, 3)`, yet `find_critical`
returns the O-points as `[(3,3,6), (6,3,9)]`: the first returned O-point
`(3,3)` is NOT the one closest to the geometric midpoint — `(6,3)` is
strictly closer — because the code sorts towards the half-extent point
`(4, 3)` instead. -/
theorem find_critical_first_opoint_not_nearest_geo_mid :
    find_critical c7mk c7R c7Z c7psi 9 7 true = ([(3, 3, 6), (6, 3, 9)], []) ∧
    geo_mid c7R c7Z 9 7 = (5, 3) ∧
    okey (geo_mid c7R c7Z 9 7) (6, 3, 9) < okey (geo_mid c7R c7Z 9 7) (3, 3, 6) := by
  decide

/-- C7 (amended): the returned O-point list is sorted ascending by squared
distance to `domain_ref` — the half-extent point
`(0.5*(R[-1,0]-R[0,0]), 0.5*(Z[0,-1]-Z[0,0]))` the code computes, which is
the geometric midpoint only when `R[0,0] = 0 = Z[0,0]` — and consequently
the first returned O-point minimises the squared distance to that
point. -/
theorem find_critical_opoints_sorted_by_domain_ref
    (mk : SplineFactory) (R Z psi : ℕ → ℕ → ℚ) (nx ny : ℕ) (d : Bool) :
    ((find_critical mk R Z psi nx ny d).1.Sorted
      (fun a b => okey (domain_ref R Z nx ny) a ≤ okey (domain_ref R Z nx ny) b)) ∧
    (∀ o rest, (find_critical mk R Z psi nx ny d).1 = o :: rest →
      ∀ p ∈ (find_critical mk R Z psi nx ny d).1,
        okey (domain_ref R Z nx ny) o ≤ okey (domain_ref R Z nx ny) p) := by
  have hsorted : ((find_critical mk R Z psi nx ny d).1.Sorted
      (fun a b => okey (domain_ref R Z nx ny) a ≤ okey (domain_ref R Z nx ny) b)) := by
    unfold find_critical
    dsimp only
    split
    · next h =>
      rw [List.isEmpty_iff] at h
      rw [h]
      exact List.sorted_nil
    · exact mergeSort_key_sorted (okey (domain_ref R Z nx ny)) _
  refine ⟨hsorted, fun o rest heq p hp => ?_⟩
  rw [heq] at hsorted hp
  rcases List.mem_cons.mp hp with h | h
  · rw [h]
  · exact List.rel_of_sorted_cons hsorted p h

/-- Witness for the amended C7: at the counterexample instance the first
returned O-point `(3,3,6)` minimises the squared distance to the
half-extent point. -/
theorem find_critical_opoints_sorted_by_domain_ref_witness :
    okey (domain_ref c7R c7Z 9 7) (3, 3, 6) ≤ okey (domain_ref c7R c7Z 9 7) (6, 3, 9) :=
  (find_critical_opoints_sorted_by_domain_ref c7mk c7R c7Z c7psi 9 7 true).2
    (3, 3, 6) [(6, 3, 9)] (by decide) (6, 3, 9) (by decide)

/-! ## Claim C8: deduplication invariant -/

theorem remove_dup_go_mem_acc (pts : List CriticalPoint) :
    ∀ acc q, q ∈ acc → q ∈ remove_dup_go pts acc := by
  induction pts with
  | nil => intro acc q h; exact h
  | cons p rest ih =>
    intro acc q h
    simp only [remove_dup_go]
    split
    · exact ih acc q h
    · exact ih _ q (List.mem_append_left _ h)

theorem remove_dup_go_append (l1 l2 : List CriticalPoint) :
    ∀ acc, remove_dup_go (l1 ++ l2) acc = remove_dup_go l2 (remove_dup_go l1 acc) := by
  induction l1 with
  | nil => intro acc; rfl
  | cons p rest ih =>
    intro acc
    rw [List.cons_append]
    simp only [remove_dup_go]
    split
    · exact ih acc
    · exact ih _

theorem remove_dup_go_sources (pts : List CriticalPoint) :
    ∀ acc x, x ∈ remove_dup_go pts acc → x ∈ acc ∨ x ∈ pts := by
  induction pts with
  | nil => intro acc x h; exact Or.inl h
  | cons p rest ih =>
    intro acc x h
    simp only [remove_dup_go] at h
    split at h
    · rcases ih acc x h with h1 | h1
      · exact Or.inl h1
      · exact Or.inr (List.mem_cons_of_mem _ h1)
    · rcases ih _ x h with h1 | h1
      · rcases List.mem_append.mp h1 with h2 | h2
        · exact Or.inl h2
        · rw [List.mem_singleton] at h2
          exact Or.inr (h2 ▸ List.mem_cons_self _ _)
      · exact Or.inr (List.mem_cons_of_mem _ h1)

theorem remove_dup_go_pairwise (pts : List CriticalPoint) :
    ∀ acc, acc.Pairwise (fun p q => 1/100000 ≤ sqdist p q) →
      (remove_dup_go pts acc).Pairwise (fun p q => 1/100000 ≤ sqdist p q) := by
  induction pts with
  | nil => intro acc h; exact h
  | cons p rest ih =>
    intro acc h
    simp only [remove_dup_go]
    split
    · exact ih acc h
    · next hc =>
      apply ih
      rw [List.pairwise_append]
      refine ⟨h, List.pairwise_singleton _ _, ?_⟩
      intro a ha b hb
      rw [List.mem_singleton] at hb
      subst hb
      rw [List.any_eq_true] at hc
      push_neg at hc
      have hfar := hc a ha
      rw [sqdist_comm]
      exact le_of_not_lt (by simpa using hfar)

/-- The deduplicated list keeps every pair at squared distance at least
`1e-5`. -/
theorem remove_dup_pairwise (pts : List CriticalPoint) :
    (remove_dup pts).Pairwise (fun p q => 1/100000 ≤ sqdist p q) :=
  remove_dup_go_pairwise pts [] List.Pairwise.nil

/-- A point dropped by `remove_dup` always has an earlier kept point
within squared distance `1e-5`: the first-encountered member of a
duplicate group is the one kept. -/
theorem remove_dup_drop_has_earlier_keeper (pts : List CriticalPoint)
    (k : ℕ) (hk : k < pts.length) (hdrop : pts.get ⟨k, hk⟩ ∉ remove_dup pts) :
    ∃ (m : ℕ) (hm : m < pts.length), m < k ∧ pts.get ⟨m, hm⟩ ∈ remove_dup pts ∧
      sqdist (pts.get ⟨m, hm⟩) (pts.get ⟨k, hk⟩) < 1/100000 := by
  have hsplit : pts = pts.take k ++ pts.get ⟨k, hk⟩ :: pts.drop (k + 1) := by
    conv_lhs => rw [← List.take_append_drop k pts]
    rw [List.drop_eq_get_cons hk]
  have hrd : remove_dup pts =
      remove_dup_go (pts.get ⟨k, hk⟩ :: pts.drop (k + 1)) (remove_dup_go (pts.take k) []) := by
    rw [remove_dup]
    conv_lhs => rw [hsplit]
    rw [remove_dup_go_append]
  by_cases hc : (remove_dup_go (pts.take k) []).any
      (fun p2 => decide (sqdist (pts.get ⟨k, hk⟩) p2 < 1/100000)) = true
  · rw [List.any_eq_true] at hc
    obtain ⟨p2, hp2A, hp2c⟩ := hc
    rw [decide_eq_true_eq] at hp2c
    have hsrc := remove_dup_go_sources (pts.take k) [] p2 hp2A
    simp only [List.not_mem_nil, false_or] at hsrc
    obtain ⟨⟨m, hmlt⟩, hmeq⟩ := List.mem_iff_get.mp hsrc
    have hmk : m < k := lt_of_lt_of_le hmlt (by rw [List.length_take]; exact min_le_left _ _)
    have hmlen : m < pts.length := by
      rw [List.length_take] at hmlt
      omega
    have hgets : pts.get ⟨m, hmlen⟩ = p2 := by
      rw [← hmeq]
      simp [List.get_eq_getElem, List.getElem_take]
    refine ⟨m, hmlen, hmk, ?_, ?_⟩
    · rw [hgets, hrd]
      exact remove_dup_go_mem_acc _ _ _ hp2A
    · rw [hgets, sqdist_comm]
      exact hp2c
  · exfalso
    apply hdrop
    rw [hrd]
    simp only [remove_dup_go]
    rw [if_neg hc]
    exact remove_dup_go_mem_acc _ _ _ (List.mem_append_right _ (List.mem_singleton_self _))

/-- Transfer of the separation invariant along permutations (the relation
is symmetric). -/
theorem pairwise_far_of_perm {l1 l2 : List CriticalPoint}
    (hp : l1.Perm l2) (h : l1.Pairwise (fun p q => 1/100000 ≤ sqdist p q)) :
    l2.Pairwise (fun p q => 1/100000 ≤ sqdist p q) :=
  (List.Perm.pairwise_iff (fun {_ _} hxy => by rwa [sqdist_comm]) hp).mp h

/-- C8: every pair of same-kind critical points returned by
`find_critical` is separated by squared distance at least `1e-5`, and when
duplicates occur the first-encountered point of each duplicate group is
the one `remove_dup` keeps (a dropped point always has an earlier kept
point within the tolerance). -/
theorem find_critical_dedup_invariant
    (mk : SplineFactory) (R Z psi : ℕ → ℕ → ℚ) (nx ny : ℕ) (d : Bool)
    (pts : List CriticalPoint) :
    ((find_critical mk R Z psi nx ny d).1.Pairwise
      (fun p q => 1/100000 ≤ sqdist p q)) ∧
    ((find_critical mk R Z psi nx ny d).2.Pairwise
      (fun p q => 1/100000 ≤ sqdist p q)) ∧
    (∀ (k : ℕ) (hk : k < pts.length), pts.get ⟨k, hk⟩ ∉ remove_dup pts →
      ∃ (m : ℕ) (hm : m < pts.length), m < k ∧ pts.get ⟨m, hm⟩ ∈ remove_dup pts ∧
        sqdist (pts.get ⟨m, hm⟩) (pts.get ⟨k, hk⟩) < 1/100000) := by
  refine ⟨?_, ?_, remove_dup_drop_has_earlier_keeper pts⟩
  · unfold find_critical
    dsimp only
    split
    · exact remove_dup_pairwise _
    · exact pairwise_far_of_perm (List.mergeSort_perm _ _).symm (remove_dup_pairwise _)
  · unfold find_critical
    dsimp only
    split
    · exact remove_dup_pairwise _
    · apply pairwise_far_of_perm (List.mergeSort_perm _ _).symm
      split
      · split
        · exact List.Pairwise.sublist (List.filter_sublist _) (remove_dup_pairwise _)
        · exact remove_dup_pairwise _
      · exact remove_dup_pairwise _

/-- Witness for C8: the separation invariant at the C7 concrete instance,
and the dropped duplicate `(0,0,5)` of `[(0,0,0), (0,0,5)]` has the
earlier kept point `(0,0,0)` within tolerance. -/
theorem find_critical_dedup_invariant_witness :
    ((find_critical c7mk c7R c7Z c7psi 9 7 true).1.Pairwise
      (fun p q => 1/100000 ≤ sqdist p q)) ∧
    (∃ (m : ℕ) (hm : m < ([(0, 0, 0), (0, 0, 5)] : List CriticalPoint).length),
      m < 1 ∧
      ([(0, 0, 0), (0, 0, 5)] : List CriticalPoint).get ⟨m, hm⟩ ∈
        remove_dup [(0, 0, 0), (0, 0, 5)] ∧
      sqdist (([(0, 0, 0), (0, 0, 5)] : List CriticalPoint).get ⟨m, hm⟩)
        (([(0, 0, 0), (0, 0, 5)] : List CriticalPoint).get ⟨1, by decide⟩) < 1/100000) := by
  have h := find_critical_dedup_invariant c7mk c7R c7Z c7psi 9 7 true
    [(0, 0, 0), (0, 0, 5)]
  exact ⟨h.1, h.2.2 1 (by decide) (by decide)⟩

/-! ## Claim C4: soundness of `core_mask` -/

theorem mset_apply (m : Mask) (c : ℕ × ℕ) (v : ℚ) (a b : ℕ) :
    mset m c v a b = if (a, b) = c then v else m a b := by
  simp only [mset, Prod.ext_iff]

theorem nbhdWrite_col_eq (w : ℕ × ℕ → ℚ) (i a b : ℕ) :
    ∀ (ys : List ℕ) (m : Mask),
      (ys.foldl (fun m j => mset m (i, j) (w (i, j))) m) a b =
        if a = i ∧ b ∈ ys then w (a, b) else m a b := by
  intro ys
  induction ys with
  | nil => intro m; simp
  | cons y ys ih =>
    intro m
    rw [List.foldl_cons, ih]
    by_cases h1 : a = i ∧ b ∈ ys
    · rw [if_pos h1, if_pos ⟨h1.1, List.mem_cons_of_mem _ h1.2⟩]
    · rw [if_neg h1, mset_apply]
      by_cases h2 : a = i ∧ b = y
      · rw [if_pos (by simp [h2.1, h2.2]), if_pos ⟨h2.1, by simp [h2.2]⟩, h2.1, h2.2]
      · have hq : ¬ (a, b) = (i, y) := by
          simp only [Prod.mk.injEq]
          tauto
        have hq2 : ¬ (a = i ∧ b ∈ y :: ys) := by
          simp only [List.mem_cons]
          tauto
        rw [if_neg hq, if_neg hq2]

theorem nbhdWrite_box_eq (w : ℕ × ℕ → ℚ) (ny : ℕ) (c : ℕ × ℕ) (a b : ℕ) :
    ∀ (xs : List ℕ) (m : Mask),
      (xs.foldl (fun m i =>
        (clip3 c.2 ny).foldl (fun m j => mset m (i, j) (w (i, j))) m) m) a b =
        if a ∈ xs ∧ b ∈ clip3 c.2 ny then w (a, b) else m a b := by
  intro xs
  induction xs with
  | nil => intro m; simp
  | cons x xs ih =>
    intro m
    rw [List.foldl_cons, ih, nbhdWrite_col_eq]
    by_cases h1 : a ∈ xs ∧ b ∈ clip3 c.2 ny
    · rw [if_pos h1, if_pos ⟨List.mem_cons_of_mem _ h1.1, h1.2⟩]
    · rw [if_neg h1]
      by_cases h2 : a = x ∧ b ∈ clip3 c.2 ny
      · rw [if_pos h2, if_pos ⟨by simp [h2.1], h2.2⟩]
      · have hq : ¬ (a ∈ x :: xs ∧ b ∈ clip3 c.2 ny) := by
          simp only [List.mem_cons]
          tauto
        rw [if_neg h2, if_neg hq]

theorem nbhdWrite_eq (w : ℕ × ℕ → ℚ) (nx ny : ℕ) (a b : ℕ) :
    ∀ (inds : List (ℕ × ℕ)) (m : Mask),
      nbhdWrite w nx ny inds m a b =
        if inNbhd nx ny inds (a, b) then w (a, b) else m a b := by
  intro inds
  induction inds with
  | nil =>
    intro m
    rw [if_neg (by simp [inNbhd])]
    rfl
  | cons c cs ih =>
    intro m
    have hstep : nbhdWrite w nx ny (c :: cs) m =
        nbhdWrite w nx ny cs
          ((clip3 c.1 nx).foldl (fun m i =>
            (clip3 c.2 ny).foldl (fun m j => mset m (i, j) (w (i, j))) m) m) := rfl
    rw [hstep, ih, nbhdWrite_box_eq]
    by_cases h1 : inNbhd nx ny cs (a, b)
    · obtain ⟨p, hp, hpc⟩ := h1
      rw [if_pos ⟨p, hp, hpc⟩, if_pos ⟨p, List.mem_cons_of_mem _ hp, hpc⟩]
    · rw [if_neg h1]
      by_cases h2 : a ∈ clip3 c.1 nx ∧ b ∈ clip3 c.2 ny
      · rw [if_pos h2, if_pos ⟨c, List.mem_cons_self _ _, h2⟩]
      · have hq : ¬ inNbhd nx ny (c :: cs) (a, b) := by
          rintro ⟨p, hp, hpc⟩
          rcases List.mem_cons.mp hp with h | h
          · exact h2 (h ▸ hpc)
          · exact h1 ⟨p, h, hpc⟩
        rw [if_neg h2, if_neg hq]

/-- Connectivity is monotone in the set of good cells. -/
theorem Conn.mono {good good' : ℕ × ℕ → Prop} (h : ∀ c, good c → good' c)
    {s c : ℕ × ℕ} (hc : Conn good s c) : Conn good' s c := by
  induction hc with
  | refl hg => exact Conn.refl (h _ hg)
  | step _ hg hadj ih => exact Conn.step ih (h _ hg) hadj

theorem FillInv_tail {psin : ℕ → ℕ → ℚ} {nx ny : ℕ} {inds : List (ℕ × ℕ)}
    {seed : ℕ × ℕ} {pend : ℕ × ℕ → Prop} {m : Mask} {c : ℕ × ℕ} {st : List (ℕ × ℕ)}
    (inv : FillInv psin nx ny inds seed pend m (c :: st)) :
    FillInv psin nx ny inds seed pend m st :=
  { vals := inv.vals, nbhd_two := inv.nbhd_two, two_nbhd := inv.two_nbhd,
    one_psin := inv.one_psin, one_conn := inv.one_conn,
    st_ok := fun d hd => inv.st_ok d (List.mem_cons_of_mem _ hd) }

theorem FillInv_weaken {psin : ℕ → ℕ → ℚ} {nx ny : ℕ} {inds : List (ℕ × ℕ)}
    {seed : ℕ × ℕ} {pend pend' : ℕ × ℕ → Prop} {m : Mask} {st : List (ℕ × ℕ)}
    (hp : ∀ c, pend c → pend' c)
    (inv : FillInv psin nx ny inds seed pend m st) :
    FillInv psin nx ny inds seed pend' m st :=
  { vals := inv.vals, nbhd_two := inv.nbhd_two, two_nbhd := inv.two_nbhd,
    one_psin := inv.one_psin, one_conn := inv.one_conn,
    st_ok := by
      intro c hc
      obtain ⟨h1, h2, h3⟩ := inv.st_ok c hc
      refine ⟨h1, h2, ?_⟩
      rcases h3 with h3 | ⟨p, hp1, hp2⟩
      · exact Or.inl h3
      · exact Or.inr ⟨p, hp1.imp id (hp p), hp2⟩ }

theorem FillInv_mark {psin : ℕ → ℕ → ℚ} {nx ny : ℕ} {inds : List (ℕ × ℕ)}
    {seed : ℕ × ℕ} {m : Mask} {st : List (ℕ × ℕ)} {i j : ℕ}
    (inv : FillInv psin nx ny inds seed (fun p => p = (i, j)) m st)
    (hpsin : psin i j < 1 ∨ (i, j) = seed)
    (hnb : ¬ inNbhd nx ny inds (i, j))
    (hadj : (i, j) = seed ∨ ∃ p : ℕ × ℕ, m p.1 p.2 = 1 ∧ Adj p (i, j)) :
    FillInv psin nx ny inds seed (fun _ => False) (mset m (i, j) 1) st := by
  have hself : (mset m (i, j) 1) i j = 1 := by
    rw [mset_apply, if_pos rfl]
  have hmono : ∀ c : ℕ × ℕ, m c.1 c.2 = 1 → (mset m (i, j) 1) c.1 c.2 = 1 := by
    intro c hc
    rw [mset_apply]
    split
    · rfl
    · exact hc
  refine { vals := ?_, nbhd_two := ?_, two_nbhd := ?_, one_psin := ?_,
           one_conn := ?_, st_ok := ?_ }
  · intro c
    rw [mset_apply]
    split
    · exact Or.inr (Or.inl rfl)
    · exact inv.vals c
  · intro c hcn
    have hne : ¬ ((c.1, c.2) = (i, j)) := by
      intro he
      apply hnb
      have hc : c = (i, j) := by
        cases c
        exact he
      exact hc ▸ hcn
    rw [mset_apply, if_neg hne]
    exact inv.nbhd_two c hcn
  · intro c h2
    rw [mset_apply] at h2
    split at h2
    · exact absurd h2 (by norm_num)
    · exact inv.two_nbhd c h2
  · intro c h1
    rw [mset_apply] at h1
    split at h1
    · next he =>
      have hc : c = (i, j) := by
        cases c
        exact he
      subst hc
      exact hpsin
    · exact inv.one_psin c h1
  · intro c h1
    rw [mset_apply] at h1
    split at h1
    · next he =>
      have hc : c = (i, j) := by
        cases c
        exact he
      subst hc
      rcases hadj with hs | ⟨p, hp1, hp2⟩
      · rw [← hs]
        exact Conn.refl hself
      · exact Conn.step (Conn.mono hmono (inv.one_conn p hp1)) hself hp2
    · exact Conn.mono hmono (inv.one_conn c h1)
  · intro c hc
    obtain ⟨h1, h2, h3⟩ := inv.st_ok c hc
    refine ⟨h1, h2, ?_⟩
    rcases h3 with h3 | ⟨p, hp1, hp2⟩
    · exact Or.inl h3
    · refine Or.inr ⟨p, Or.inl ?_, hp2⟩
      rcases hp1 with hp1 | hp1
      · exact hmono p hp1
      · subst hp1
        exact hself

theorem FillInv_push {psin : ℕ → ℕ → ℚ} {nx ny : ℕ} {inds : List (ℕ × ℕ)}
    {seed : ℕ × ℕ} {m : Mask} {st : List (ℕ × ℕ)} (c : ℕ × ℕ)
    (inv : FillInv psin nx ny inds seed (fun _ => False) m st)
    (hpsin : psin c.1 c.2 < 1) (hmask : m c.1 c.2 < 1/2)
    (hadj : ∃ p : ℕ × ℕ, m p.1 p.2 = 1 ∧ Adj p c) :
    FillInv psin nx ny inds seed (fun _ => False) m (c :: st) :=
  { vals := inv.vals, nbhd_two := inv.nbhd_two, two_nbhd := inv.two_nbhd,
    one_psin := inv.one_psin, one_conn := inv.one_conn,
    st_ok := by
      intro d hd
      rcases List.mem_cons.mp hd with hd | hd
      · subst hd
        refine ⟨Or.inl hpsin, ?_, ?_⟩
        · intro hn
          rw [inv.nbhd_two d hn] at hmask
          exact absurd hmask (by norm_num)
        · obtain ⟨p, hp1, hp2⟩ := hadj
          exact Or.inr ⟨p, Or.inl hp1, hp2⟩
      · exact inv.st_ok d hd }

theorem FillInv_push_pend {psin : ℕ → ℕ → ℚ} {nx ny : ℕ} {inds : List (ℕ × ℕ)}
    {seed : ℕ × ℕ} {m : Mask} {st : List (ℕ × ℕ)} (c pc : ℕ × ℕ)
    (inv : FillInv psin nx ny inds seed (fun p => p = pc) m st)
    (hpsin : psin c.1 c.2 < 1) (hmask : m c.1 c.2 < 1/2)
    (hadjp : Adj pc c) :
    FillInv psin nx ny inds seed (fun p => p = pc) m (c :: st) :=
  { vals := inv.vals, nbhd_two := inv.nbhd_two, two_nbhd := inv.two_nbhd,
    one_psin := inv.one_psin, one_conn := inv.one_conn,
    st_ok := by
      intro d hd
      rcases List.mem_cons.mp hd with hd | hd
      · subst hd
        refine ⟨Or.inl hpsin, ?_, ?_⟩
        · intro hn
          rw [inv.nbhd_two d hn] at hmask
          exact absurd hmask (by norm_num)
        · exact Or.inr ⟨pc, Or.inr rfl, hadjp⟩
      · exact inv.st_ok d hd }

theorem rowScan_inv (psin : ℕ → ℕ → ℚ) (nx ny : ℕ) (inds : List (ℕ × ℕ))
    (seed : ℕ × ℕ) (i : ℕ) :
    ∀ (fuel j : ℕ) (m : Mask) (st : List (ℕ × ℕ)),
      FillInv psin nx ny inds seed (fun p => p = (i, j)) m st →
      (psin i j < 1 ∨ (i, j) = seed) →
      ¬ inNbhd nx ny inds (i, j) →
      ((i, j) = seed ∨ ∃ p : ℕ × ℕ, m p.1 p.2 = 1 ∧ Adj p (i, j)) →
      FillInv psin nx ny inds seed (fun _ => False)
        (rowScan psin nx ny i fuel j m st).1 (rowScan psin nx ny i fuel j m st).2 := by
  intro fuel
  induction fuel with
  | zero =>
    intro j m st hinv hpsin hnb hadj
    simp only [rowScan]
    exact FillInv_mark hinv hpsin hnb hadj
  | succ fuel ih =>
    intro j m st hinv hpsin hnb hadj
    simp only [rowScan]
    have h1 : FillInv psin nx ny inds seed (fun _ => False) (mset m (i, j) 1) st :=
      FillInv_mark hinv hpsin hnb hadj
    have hself : (mset m (i, j) 1) i j = 1 := by
      rw [mset_apply, if_pos rfl]
    by_cases hc1 : i + 1 < nx ∧ psin (i + 1) j < 1 ∧ (mset m (i, j) 1) (i + 1) j < 1/2
    all_goals by_cases hc2 : 0 < i ∧ psin (i - 1) j < 1 ∧ (mset m (i, j) 1) (i - 1) j < 1/2
    all_goals first
      | rw [if_pos hc1, if_pos hc2]
      | rw [if_pos hc1, if_neg hc2]
      | rw [if_neg hc1, if_pos hc2]
      | rw [if_neg hc1, if_neg hc2]
    all_goals
      first
        | (have h2 : FillInv psin nx ny inds seed (fun _ => False) (mset m (i, j) 1)
              ((i - 1, j) :: (i + 1, j) :: st) :=
            FillInv_push _ (FillInv_push _ h1 hc1.2.1 hc1.2.2
                ⟨(i, j), hself, Or.inr ⟨rfl, Or.inr rfl⟩⟩)
              hc2.2.1 hc2.2.2 ⟨(i, j), hself, Or.inr ⟨rfl, Or.inl (by omega)⟩⟩
           skip)
        | (have h2 : FillInv psin nx ny inds seed (fun _ => False) (mset m (i, j) 1)
              ((i + 1, j) :: st) :=
            FillInv_push _ h1 hc1.2.1 hc1.2.2 ⟨(i, j), hself, Or.inr ⟨rfl, Or.inr rfl⟩⟩
           skip)
        | (have h2 : FillInv psin nx ny inds seed (fun _ => False) (mset m (i, j) 1)
              ((i - 1, j) :: st) :=
            FillInv_push _ h1 hc2.2.1 hc2.2.2 ⟨(i, j), hself, Or.inr ⟨rfl, Or.inl (by omega)⟩⟩
           skip)
        | (have h2 : FillInv psin nx ny inds seed (fun _ => False) (mset m (i, j) 1) st := h1
           skip)
    all_goals
      by_cases hj : j = ny - 1
    all_goals first
      | rw [if_pos hj]
      | rw [if_neg hj]
    all_goals
      try exact h2
    all_goals
      by_cases hstop : 1 ≤ psin i (j + 1) ∨ 1/2 < (mset m (i, j) 1) i (j + 1)
    all_goals first
      | rw [if_pos hstop]
      | rw [if_neg hstop]
    all_goals
      try exact h2
    all_goals
      push_neg at hstop
    all_goals
      refine ih (j + 1) (mset m (i, j) 1) _ (FillInv_weaken (by simp) h2) (Or.inl hstop.1)
        ?_ (Or.inr ⟨(i, j), hself, Or.inl ⟨rfl, Or.inr rfl⟩⟩)
    all_goals
      intro hn
    all_goals
      have h2m := h2.nbhd_two (i, j + 1) hn
    all_goals
      rw [h2m] at hstop
    all_goals
      exact absurd hstop.2 (by norm_num)

theorem floodLoop_inv (psin : ℕ → ℕ → ℚ) (nx ny : ℕ) (inds : List (ℕ × ℕ))
    (seed : ℕ × ℕ) :
    ∀ (fuel : ℕ) (m : Mask) (st : List (ℕ × ℕ)),
      FillInv psin nx ny inds seed (fun _ => False) m st →
      ∃ st', FillInv psin nx ny inds seed (fun _ => False)
        (floodLoop psin nx ny fuel m st) st' := by
  intro fuel
  induction fuel with
  | zero =>
    intro m st hinv
    exact ⟨st, hinv⟩
  | succ fuel ih =>
    intro m st hinv
    cases st with
    | nil =>
      simp only [floodLoop]
      exact ⟨[], hinv⟩
    | cons hd rest =>
      obtain ⟨i, j⟩ := hd
      simp only [floodLoop]
      obtain ⟨hpsin, hnb, hadj0⟩ := hinv.st_ok (i, j) (List.mem_cons_self _ _)
      have hadj : (i, j) = seed ∨ ∃ p : ℕ × ℕ, m p.1 p.2 = 1 ∧ Adj p (i, j) := by
        rcases hadj0 with h | ⟨p, hp1 | hF, hp2⟩
        · exact Or.inl h
        · exact Or.inr ⟨p, hp1, hp2⟩
        · exact hF.elim
      have hrest : FillInv psin nx ny inds seed (fun p => p = (i, j)) m rest :=
        FillInv_weaken (by simp) (FillInv_tail hinv)
      by_cases hc0 : 0 < j ∧ psin i (j - 1) < 1 ∧ m i (j - 1) < 1/2
      · rw [if_pos hc0]
        have hst0 : FillInv psin nx ny inds seed (fun p => p = (i, j)) m
            ((i, j - 1) :: rest) :=
          FillInv_push_pend (i, j - 1) (i, j) hrest hc0.2.1 hc0.2.2
            (Or.inl ⟨rfl, Or.inl (by omega)⟩)
        exact ih _ _ (rowScan_inv psin nx ny inds seed i ny j m _ hst0 hpsin hnb hadj)
      · rw [if_neg hc0]
        exact ih _ _ (rowScan_inv psin nx ny inds seed i ny j m _ hrest hpsin hnb hadj)

theorem FillBasic_tail {psin : ℕ → ℕ → ℚ} {nx ny : ℕ} {inds : List (ℕ × ℕ)}
    {seed c : ℕ × ℕ} {m : Mask} {st : List (ℕ × ℕ)}
    (inv : FillBasic psin nx ny inds seed m (c :: st)) :
    FillBasic psin nx ny inds seed m st :=
  { vals := inv.vals, two_nbhd := inv.two_nbhd, one_psin := inv.one_psin,
    st_psin := fun d hd => inv.st_psin d (List.mem_cons_of_mem _ hd) }

theorem FillBasic_mark {psin : ℕ → ℕ → ℚ} {nx ny : ℕ} {inds : List (ℕ × ℕ)}
    {seed : ℕ × ℕ} {m : Mask} {st : List (ℕ × ℕ)} {i j : ℕ}
    (inv : FillBasic psin nx ny inds seed m st)
    (hpsin : psin i j < 1 ∨ (i, j) = seed) :
    FillBasic psin nx ny inds seed (mset m (i, j) 1) st := by
  refine { vals := ?_, two_nbhd := ?_, one_psin := ?_, st_psin := inv.st_psin }
  · intro c
    rw [mset_apply]
    split
    · exact Or.inr (Or.inl rfl)
    · exact inv.vals c
  · intro c h2
    rw [mset_apply] at h2
    split at h2
    · exact absurd h2 (by norm_num)
    · exact inv.two_nbhd c h2
  · intro c h1
    rw [mset_apply] at h1
    split at h1
    · next he =>
      have hc : c = (i, j) := by
        cases c
        exact he
      subst hc
      exact hpsin
    · exact inv.one_psin c h1

theorem FillBasic_push {psin : ℕ → ℕ → ℚ} {nx ny : ℕ} {inds : List (ℕ × ℕ)}
    {seed : ℕ × ℕ} {m : Mask} {st : List (ℕ × ℕ)} (c : ℕ × ℕ)
    (inv : FillBasic psin nx ny inds seed m st)
    (hpsin : psin c.1 c.2 < 1) :
    FillBasic psin nx ny inds seed m (c :: st) :=
  { vals := inv.vals, two_nbhd := inv.two_nbhd, one_psin := inv.one_psin,
    st_psin := by
      intro d hd
      rcases List.mem_cons.mp hd with hd | hd
      · subst hd
        exact Or.inl hpsin
      · exact inv.st_psin d hd }

theorem rowScan_basic (psin : ℕ → ℕ → ℚ) (nx ny : ℕ) (inds : List (ℕ × ℕ))
    (seed : ℕ × ℕ) (i : ℕ) :
    ∀ (fuel j : ℕ) (m : Mask) (st : List (ℕ × ℕ)),
      FillBasic psin nx ny inds seed m st →
      (psin i j < 1 ∨ (i, j) = seed) →
      FillBasic psin nx ny inds seed
        (rowScan psin nx ny i fuel j m st).1 (rowScan psin nx ny i fuel j m st).2 := by
  intro fuel
  induction fuel with
  | zero =>
    intro j m st hinv hpsin
    simp only [rowScan]
    exact FillBasic_mark hinv hpsin
  | succ fuel ih =>
    intro j m st hinv hpsin
    simp only [rowScan]
    have h1 : FillBasic psin nx ny inds seed (mset m (i, j) 1) st := FillBasic_mark hinv hpsin
    by_cases hc1 : i + 1 < nx ∧ psin (i + 1) j < 1 ∧ (mset m (i, j) 1) (i + 1) j < 1/2
    all_goals by_cases hc2 : 0 < i ∧ psin (i - 1) j < 1 ∧ (mset m (i, j) 1) (i - 1) j < 1/2
    all_goals first
      | rw [if_pos hc1, if_pos hc2]
      | rw [if_pos hc1, if_neg hc2]
      | rw [if_neg hc1, if_pos hc2]
      | rw [if_neg hc1, if_neg hc2]
    all_goals
      first
        | (have h2 : FillBasic psin nx ny inds seed (mset m (i, j) 1)
              ((i - 1, j) :: (i + 1, j) :: st) :=
            FillBasic_push _ (FillBasic_push _ h1 hc1.2.1) hc2.2.1
           skip)
        | (have h2 : FillBasic psin nx ny inds seed (mset m (i, j) 1)
              ((i + 1, j) :: st) :=
            FillBasic_push _ h1 hc1.2.1
           skip)
        | (have h2 : FillBasic psin nx ny inds seed (mset m (i, j) 1)
              ((i - 1, j) :: st) :=
            FillBasic_push _ h1 hc2.2.1
           skip)
        | (have h2 : FillBasic psin nx ny inds seed (mset m (i, j) 1) st := h1
           skip)
    all_goals
      by_cases hj : j = ny - 1
    all_goals first
      | rw [if_pos hj]
      | rw [if_neg hj]
    all_goals
      try exact h2
    all_goals
      by_cases hstop : 1 ≤ psin i (j + 1) ∨ 1/2 < (mset m (i, j) 1) i (j + 1)
    all_goals first
      | rw [if_pos hstop]
      | rw [if_neg hstop]
    all_goals
      try exact h2
    all_goals
      push_neg at hstop
    all_goals
      exact ih (j + 1) (mset m (i, j) 1) _ h2 (Or.inl hstop.1)

theorem floodLoop_basic (psin : ℕ → ℕ → ℚ) (nx ny : ℕ) (inds : List (ℕ × ℕ))
    (seed : ℕ × ℕ) :
    ∀ (fuel : ℕ) (m : Mask) (st : List (ℕ × ℕ)),
      FillBasic psin nx ny inds seed m st →
      ∃ st', FillBasic psin nx ny inds seed (floodLoop psin nx ny fuel m st) st' := by
  intro fuel
  induction fuel with
  | zero =>
    intro m st hinv
    exact ⟨st, hinv⟩
  | succ fuel ih =>
    intro m st hinv
    cases st with
    | nil =>
      simp only [floodLoop]
      exact ⟨[], hinv⟩
    | cons hd rest =>
      obtain ⟨i, j⟩ := hd
      simp only [floodLoop]
      have hpsin := hinv.st_psin (i, j) (List.mem_cons_self _ _)
      have hrest : FillBasic psin nx ny inds seed m rest := FillBasic_tail hinv
      by_cases hc0 : 0 < j ∧ psin i (j - 1) < 1 ∧ m i (j - 1) < 1/2
      · rw [if_pos hc0]
        exact ih _ _ (rowScan_basic psin nx ny inds seed i ny j m _
          (FillBasic_push _ hrest hc0.2.1) hpsin)
      · rw [if_neg hc0]
        exact ih _ _ (rowScan_basic psin nx ny inds seed i ny j m _ hrest hpsin)

theorem blockNbhd_eq (nx ny : ℕ) (inds : List (ℕ × ℕ)) (m : Mask) (a b : ℕ) :
    blockNbhd nx ny inds m a b = if inNbhd nx ny inds (a, b) then 2 else m a b := by
  rw [blockNbhd, nbhdWrite_eq]

theorem resolveNbhd_eq (psin : ℕ → ℕ → ℚ) (nx ny : ℕ) (inds : List (ℕ × ℕ))
    (m : Mask) (a b : ℕ) :
    resolveNbhd psin nx ny inds m a b =
      if inNbhd nx ny inds (a, b) then (if psin a b < 1 then 1 else 0) else m a b := by
  rw [resolveNbhd, nbhdWrite_eq]

/-- C4 counterexample: on a 3×3 grid with constant flux 5 (axis value 0,
boundary value 1 supplied, no X-points at all, so there are no saddle
neighbourhoods and no promoted cells), every cell has normalised flux
5 ≥ 1, yet `core_mask` marks the seed cell `(1,1)` — the cell nearest the
O-point — inside: the fill marks the popped seed unconditionally.  This
refutes the claim that no cell marked 1 has normalised flux ≥ 1.0 except
promoted saddle cells. -/
theorem core_mask_seed_marked_despite_high_flux :
    ((core_mask c4R c4Z c4psi 3 3 [(1, 1, 0)] [] (some 1)).getD (fun _ _ => 0)) 1 1 = 1 ∧
    ¬ core_psin c4psi 0 1 1 1 < 1 ∧
    xpt_inds c4R c4Z 3 3 [] = [] ∧
    core_seed c4R c4Z 3 3 (1, 1, 0) = (1, 1) := by
  refine ⟨?_, by norm_num [core_psin, c4psi], rfl, by decide⟩
  decide

/-- C4 (amended): for every mask returned by `core_mask` — with axis value
taken from the supplied primary O-point and resolved boundary value `pb` —
(i) every entry is 0 or 1; (ii) every cell marked 1 has normalised flux
< 1.0 or is the seed cell (the grid cell nearest the O-point), which the
fill marks unconditionally (in particular every promoted
saddle-neighbourhood cell has normalised flux < 1.0); and (iii) provided
the seed cell lies outside every 3×3 X-point neighbourhood, every cell
marked 1 outside those neighbourhoods is 4-connected through cells marked
1 to the seed cell. -/
theorem core_mask_sound
    (R Z psi : ℕ → ℕ → ℚ) (nx ny : ℕ) (op : CriticalPoint)
    (ops xps : List CriticalPoint) (psi_bndry : Option ℚ) (pb : ℚ) (m : Mask)
    (hpb : core_boundary xps psi_bndry = some pb)
    (hm : core_mask R Z psi nx ny (op :: ops) xps psi_bndry = some m) :
    (∀ c : ℕ × ℕ, m c.1 c.2 = 0 ∨ m c.1 c.2 = 1) ∧
    (∀ c : ℕ × ℕ, m c.1 c.2 = 1 →
      core_psin psi op.2.2 pb c.1 c.2 < 1 ∨ c = core_seed R Z nx ny op) ∧
    (¬ inNbhd nx ny (xpt_inds R Z nx ny xps) (core_seed R Z nx ny op) →
      ∀ c : ℕ × ℕ, m c.1 c.2 = 1 → ¬ inNbhd nx ny (xpt_inds R Z nx ny xps) c →
        Conn (fun d => m d.1 d.2 = 1) (core_seed R Z nx ny op) c) := by
  unfold core_mask at hm
  rw [hpb] at hm
  dsimp only at hm
  rw [Option.some_inj] at hm
  subst hm
  have hinitB : FillBasic (core_psin psi op.2.2 pb) nx ny (xpt_inds R Z nx ny xps)
      (core_seed R Z nx ny op)
      (blockNbhd nx ny (xpt_inds R Z nx ny xps) (fun _ _ => 0))
      [core_seed R Z nx ny op] := by
    refine { vals := ?_, two_nbhd := ?_, one_psin := ?_, st_psin := ?_ }
    · intro c
      rw [blockNbhd_eq]
      split
      · exact Or.inr (Or.inr rfl)
      · exact Or.inl rfl
    · intro c h2
      rw [blockNbhd_eq] at h2
      split at h2
      · next hn => exact hn
      · exact absurd h2 (by norm_num)
    · intro c h1
      rw [blockNbhd_eq] at h1
      split at h1
      · exact absurd h1 (by norm_num)
      · exact absurd h1 (by norm_num)
    · intro c hc
      rw [List.mem_singleton] at hc
      subst hc
      exact Or.inr rfl
  obtain ⟨stB, hfinB⟩ := floodLoop_basic (core_psin psi op.2.2 pb) nx ny
    (xpt_inds R Z nx ny xps) (core_seed R Z nx ny op) (fill_fuel nx ny) _ _ hinitB
  refine ⟨?_, ?_, ?_⟩
  · intro c
    rw [resolveNbhd_eq]
    split
    · split
      · exact Or.inr rfl
      · exact Or.inl rfl
    · next hnn =>
      rcases hfinB.vals c with h | h | h
      · exact Or.inl h
      · exact Or.inr h
      · exact absurd (hfinB.two_nbhd c h) hnn
  · intro c h1
    rw [resolveNbhd_eq] at h1
    split at h1
    · split at h1
      · next hlt => exact Or.inl hlt
      · exact absurd h1 (by norm_num)
    · exact hfinB.one_psin c h1
  · intro hseednb c h1 hcn
    have hinitF : FillInv (core_psin psi op.2.2 pb) nx ny (xpt_inds R Z nx ny xps)
        (core_seed R Z nx ny op) (fun _ => False)
        (blockNbhd nx ny (xpt_inds R Z nx ny xps) (fun _ _ => 0))
        [core_seed R Z nx ny op] := by
      refine { vals := hinitB.vals, two_nbhd := hinitB.two_nbhd,
               one_psin := hinitB.one_psin, nbhd_two := ?_, one_conn := ?_,
               st_ok := ?_ }
      · intro c' hc'
        rw [blockNbhd_eq, if_pos hc']
      · intro c' h1'
        exact absurd h1' (by
          rw [blockNbhd_eq]
          split
          · norm_num
          · norm_num)
      · intro c' hc'
        rw [List.mem_singleton] at hc'
        subst hc'
        exact ⟨Or.inr rfl, hseednb, Or.inl rfl⟩
    obtain ⟨stF, hfinF⟩ := floodLoop_inv (core_psin psi op.2.2 pb) nx ny
      (xpt_inds R Z nx ny xps) (core_seed R Z nx ny op) (fill_fuel nx ny) _ _ hinitF
    rw [resolveNbhd_eq, if_neg hcn] at h1
    have hconn := hfinF.one_conn c h1
    refine Conn.mono ?_ hconn
    intro d hd
    have hdn : ¬ inNbhd nx ny (xpt_inds R Z nx ny xps) d := by
      intro hdn
      rw [hfinF.nbhd_two d hdn] at hd
      exact absurd hd (by norm_num)
    show resolveNbhd _ _ _ _ _ d.1 d.2 = 1
    rw [resolveNbhd_eq, if_neg hdn]
    exact hd

/-- Witness for the amended C4 at a concrete healthy instance: the 3×3
grid with flux 0 at the centre and 5 elsewhere, axis 0 and boundary 1
(no X-points), whose returned mask marks exactly the centre cell. -/
theorem core_mask_sound_witness :
    (((core_mask c4R c4Z (fun i j => if i = 1 ∧ j = 1 then 0 else 5) 3 3
        [(1, 1, 0)] [] (some 1)).getD (fun _ _ => 0)) 1 1 = 0 ∨
     ((core_mask c4R c4Z (fun i j => if i = 1 ∧ j = 1 then 0 else 5) 3 3
        [(1, 1, 0)] [] (some 1)).getD (fun _ _ => 0)) 1 1 = 1) ∧
    (((core_mask c4R c4Z (fun i j => if i = 1 ∧ j = 1 then 0 else 5) 3 3
        [(1, 1, 0)] [] (some 1)).getD (fun _ _ => 0)) 0 0 = 0 ∨
     ((core_mask c4R c4Z (fun i j => if i = 1 ∧ j = 1 then 0 else 5) 3 3
        [(1, 1, 0)] [] (some 1)).getD (fun _ _ => 0)) 0 0 = 1) := by
  have h := core_mask_sound c4R c4Z (fun i j => if i = 1 ∧ j = 1 then 0 else 5) 3 3
    (1, 1, 0) [] [] (some 1) 1
    ((core_mask c4R c4Z (fun i j => if i = 1 ∧ j = 1 then 0 else 5) 3 3
        [(1, 1, 0)] [] (some 1)).getD (fun _ _ => 0))
    rfl (by rfl)
  exact ⟨h.1 (1, 1), h.1 (0, 0)⟩

end Critical
